import Mathlib

/-!
Shallow embedding of `pyr_blend.py`, a Gaussian/Laplacian pyramid blending
module.  Images are modelled as a pair of dimensions together with a total
data function into the rationals (numpy float64 arithmetic is modelled
exactly over the rationals); out-of-range indices carry unspecified junk
that no theorem depends on.  Fallible numpy operations (indexing a python
list out of bounds, elementwise operations on arrays with incompatible
broadcast shapes) are modelled with `Except Err`.
-/

/-- Error kinds raised by the python code: `indexError` for a python list
index out of range, `shapeMismatch` for a numpy elementwise operation on
arrays whose shapes cannot be broadcast together. -/
inductive Err where
  | indexError : Err
  | shapeMismatch : Err
deriving DecidableEq, Repr

/-- A single-channel image: a `rows` by `cols` grid of rational samples.
`data` is total; only indices below the bounds are meaningful. -/
structure Image where
  rows : ℕ
  cols : ℕ
  data : ℕ → ℕ → ℚ

/-- Constant image, used to build concrete test inputs. -/
def constImg (r c : ℕ) (v : ℚ) : Image :=
  ⟨r, c, fun _ _ => v⟩

/-- Default image used with `List.getD`. -/
def dImg : Image := constImg 0 0 0

/-- Python list indexing `l[i]` for a nonnegative index: out of range raises
`IndexError`. -/
def getE {α : Type} (l : List α) (i : ℕ) : Except Err α :=
  match l.get? i with
  | some x => Except.ok x
  | none => Except.error Err.indexError

/-- scipy.ndimage boundary mode `reflect` (the default used by `convolve`):
index `t` into an axis of length `n` is folded into range by the pattern
(d c b a | a b c d | d c b a), i.e. reduce `t` mod `2*n` to `m` and take
`m` when `m < n` and `2*n - 1 - m` otherwise. -/
def reflIdx (n : ℕ) (t : ℤ) : ℕ :=
  if n = 0 then 0
  else
    let m := t.emod (2 * n)
    if m < (n : ℤ) then m.toNat else (2 * (n : ℤ) - 1 - m).toNat

/-- `scipy.ndimage.filters.convolve(im, w)` with a `(1, L)` row kernel `w`:
a 1-D convolution along the second (column) axis with reflect boundary.
For both odd and even kernel length the output sample `j` is
`sum_k w[k] * im[., j + L/2 - k]` (integer division). -/
def convH (A : Image) (w : List ℚ) : Image :=
  ⟨A.rows, A.cols, fun i j =>
    ∑ k in Finset.range w.length,
      w.getD k 0 *
        A.data (reflIdx A.rows (i : ℤ))
          (reflIdx A.cols ((j : ℤ) + (w.length / 2 : ℕ) - (k : ℤ)))⟩

/-- `scipy.ndimage.filters.convolve(im, w.transpose())` with an `(L, 1)`
column kernel: the same 1-D convolution along the first (row) axis. -/
def convV (A : Image) (w : List ℚ) : Image :=
  ⟨A.rows, A.cols, fun i j =>
    ∑ k in Finset.range w.length,
      w.getD k 0 *
        A.data (reflIdx A.rows ((i : ℤ) + (w.length / 2 : ℕ) - (k : ℤ)))
          (reflIdx A.cols (j : ℤ))⟩

/-- numpy strided slicing `a[::s, ::s]`: keep indices `0, s, 2s, ...`, so a
length-`n` axis yields `ceil(n / s) = (n + s - 1) / s` samples. -/
def strideSample (A : Image) (s : ℕ) : Image :=
  ⟨(A.rows + s - 1) / s, (A.cols + s - 1) / s, fun i j => A.data (i * s) (j * s)⟩

/-- `reduce_image(im, filter_vec, i)` from the source: blur with the row
kernel then the column kernel, then subsample with stride `2 ** i` on both
axes. -/
def reduce_image (im : Image) (fv : List ℚ) (i : ℕ) : Image :=
  strideSample (convV (convH im fv) fv) (2 ^ i)

/-- `expand_image(im, filter_vec)` from the source: allocate a zero image of
twice the size, place the input at even/even positions, then blur with the
doubled kernel along both axes. -/
def expand_image (im : Image) (fv : List ℚ) : Image :=
  let z : Image :=
    ⟨2 * im.rows, 2 * im.cols, fun i j =>
      if i % 2 = 0 ∧ j % 2 = 0 then im.data (i / 2) (j / 2) else 0⟩
  let w := fv.map (fun x => x * 2)
  convV (convH z w) w

/-- Full 1-D convolution of two row vectors, as `scipy.signal.convolve2d`
computes it on `(1, n)` shapes: output length `n + m - 1`, entry `n` is
`sum_k f[k] * g[n-k]` (missing entries count as zero). -/
def listConv (f g : List ℚ) : List ℚ :=
  (List.range (f.length + g.length - 1)).map fun n =>
    ∑ k in Finset.range (n + 1), f.getD k 0 * g.getD (n - k) 0

/-- The un-normalized blur mask after `n` iterations of the growth loop in
`make_filter_to_size`: start from `[1,1] * [1,1] = [1,2,1]` and convolve
with `[1,1]` once per iteration. -/
def growMask : ℕ → List ℚ
  | 0 => listConv [1, 1] [1, 1]
  | n + 1 => listConv (growMask n) [1, 1]

/-- `make_filter_to_size(size)` from the source: grow the binomial mask with
`size - 3` further convolutions (a python `range` of a negative number is
empty, matching truncated subtraction on `ℕ`), then normalize by the sum. -/
def make_filter_to_size (size : ℕ) : List ℚ :=
  let mask := growMask (size - 3)
  mask.map (fun x => x / mask.sum)

/-- The resolution-floor test of `build_gaussian_pyramid` for level `i`:
`rows / 2**i > LOWEST_RES or cols / 2**i > LOWEST_RES` with python true
division and `LOWEST_RES = 16`, on the original image dimensions. -/
def gCond (rows cols i : ℕ) : Prop :=
  (16 : ℚ) < (rows : ℚ) / 2 ^ i ∨ (16 : ℚ) < (cols : ℚ) / 2 ^ i

instance (rows cols i : ℕ) : Decidable (gCond rows cols i) := by
  unfold gCond; infer_instance

/-- The `for i in range(1, max_levels)` loop of `build_gaussian_pyramid`:
`fuel` iterations remain and `i` is the current loop index; append
`reduce_image(im, filter_vec, i)` while the resolution test passes and stop
at the first failure. -/
def gaussianLoop (im : Image) (fv : List ℚ) (rows cols : ℕ) :
    ℕ → ℕ → List Image
  | 0, _ => []
  | fuel + 1, i =>
    if gCond rows cols i then
      reduce_image im fv i :: gaussianLoop im fv rows cols fuel (i + 1)
    else []

/-- `build_gaussian_pyramid(im, max_levels, filter_size)` from the source. -/
def build_gaussian_pyramid (im : Image) (maxLevels filterSize : ℕ) :
    List Image × List ℚ :=
  let fv := make_filter_to_size filterSize
  (im :: gaussianLoop im fv im.rows im.cols (maxLevels - 1) 1, fv)

/-- numpy broadcasting of one axis: sizes agree, or a size-1 axis stretches
to the other; anything else is an error. -/
def bdim (a b : ℕ) : Option ℕ :=
  if a = b then some a else if a = 1 then some b else if b = 1 then some a else none

/-- Index into a possibly broadcast axis: a size-1 axis always reads 0. -/
def bix (n i : ℕ) : ℕ :=
  if n = 1 then 0 else i

/-- Elementwise binary numpy operation with broadcasting; raises a shape
error when the shapes cannot be broadcast together. -/
def ewise (f : ℚ → ℚ → ℚ) (A B : Image) : Except Err Image :=
  match bdim A.rows B.rows, bdim A.cols B.cols with
  | some r, some c =>
      Except.ok
        ⟨r, c, fun i j =>
          f (A.data (bix A.rows i) (bix A.cols j))
            (B.data (bix B.rows i) (bix B.cols j))⟩
  | _, _ => Except.error Err.shapeMismatch

/-- numpy `A - B` on two arrays. -/
def imSub (A B : Image) : Except Err Image := ewise (fun x y => x - y) A B

/-- numpy `A + B` on two arrays. -/
def imAdd (A B : Image) : Except Err Image := ewise (fun x y => x + y) A B

/-- numpy `A * B` on two arrays. -/
def imMul (A B : Image) : Except Err Image := ewise (fun x y => x * y) A B

/-- numpy `A * c` for a scalar `c` (always succeeds). -/
def smulIm (c : ℚ) (A : Image) : Image :=
  ⟨A.rows, A.cols, fun i j => A.data i j * c⟩

/-- numpy `c - A` for a scalar `c` (always succeeds). -/
def rsubIm (c : ℚ) (A : Image) : Image :=
  ⟨A.rows, A.cols, fun i j => c - A.data i j⟩

/-- numpy `np.clip(A, 0, 1)`. -/
def clipIm (A : Image) : Image :=
  ⟨A.rows, A.cols, fun i j => min (max (A.data i j) 0) 1⟩

/-- The `for i in range(max_levels - 1)` residual loop of
`build_laplacian_pyramid`: at index `i` read `g_pyr[i + 1]` (IndexError
past the end), expand it, and subtract from `g_pyr[i]`. -/
def lapLoop (g : List Image) (fv : List ℚ) : ℕ → ℕ → Except Err (List Image)
  | 0, _ => Except.ok []
  | fuel + 1, i => do
    let g1 ← getE g (i + 1)
    let expanded := expand_image g1 fv
    let g0 ← getE g i
    let li ← imSub g0 expanded
    let rest ← lapLoop g fv fuel (i + 1)
    Except.ok (li :: rest)

/-- `build_laplacian_pyramid(im, max_levels, filter_size)` from the source:
build the Gaussian pyramid, run the residual loop `max_levels - 1` times
unconditionally, then append the last Gaussian level. -/
def build_laplacian_pyramid (im : Image) (maxLevels filterSize : ℕ) :
    Except Err (List Image × List ℚ) := do
  let p := build_gaussian_pyramid im maxLevels filterSize
  let ls ← lapLoop p.1 p.2 (maxLevels - 1) 0
  Except.ok (ls ++ [p.1.getLastD dImg], p.2)

/-- One step of the reconstruction loop of `laplacian_to_image`:
`lpyr[idx] * coeff[idx] + expand_image(r, filter_vec)`. -/
def l2iStep (lpyr : List Image) (coeff : List ℚ) (fv : List ℚ) (idx : ℕ)
    (r : Image) : Except Err Image := do
  let li ← getE lpyr idx
  let ci ← getE coeff idx
  imAdd (smulIm ci li) (expand_image r fv)

/-- The reconstruction loop of `laplacian_to_image`, walking the index from
`levels = len(lpyr) - 2` down to `0`. -/
def l2iLoop (lpyr : List Image) (coeff : List ℚ) (fv : List ℚ) :
    ℕ → Image → Except Err Image
  | 0, r => l2iStep lpyr coeff fv 0 r
  | idx + 1, r => do
    let r2 ← l2iStep lpyr coeff fv (idx + 1) r
    l2iLoop lpyr coeff fv idx r2

/-- `laplacian_to_image(lpyr, filter_vec, coeff)` from the source: start
from `lpyr[-1] * coeff[-1]` and fold the residuals back in, expanding at
each step. -/
def laplacian_to_image (lpyr : List Image) (fv : List ℚ) (coeff : List ℚ) :
    Except Err Image := do
  let lLast ← getE lpyr (lpyr.length - 1)
  let cLast ← getE coeff (coeff.length - 1)
  let r := smulIm cLast lLast
  if lpyr.length ≤ 1 then Except.ok r
  else l2iLoop lpyr coeff fv (lpyr.length - 2) r

/-- The per-level blend loop of `pyramid_blending`:
`g_m[k] * lpyr_1[k] + (1 - g_m[k]) * lpyr_2[k]` for `k` in
`range(len(lpyr_1))`, with python evaluation order. -/
def blendLoop (gm l1 l2 : List Image) : ℕ → ℕ → Except Err (List Image)
  | 0, _ => Except.ok []
  | fuel + 1, k => do
    let gk ← getE gm k
    let l1k ← getE l1 k
    let t1 ← imMul gk l1k
    let l2k ← getE l2 k
    let t2 ← imMul (rsubIm 1 gk) l2k
    let ck ← imAdd t1 t2
    let rest ← blendLoop gm l1 l2 fuel (k + 1)
    Except.ok (ck :: rest)

/-- `pyramid_blending(im1, im2, mask, max_levels, filter_size_im,
filter_size_mask)` from the source.  The boolean mask arrives already
converted to rational samples (the `astype(np.float64)` boundary cast). -/
def pyramid_blending (im1 im2 mask : Image) (maxLevels fsIm fsMask : ℕ) :
    Except Err Image := do
  let p1 ← build_laplacian_pyramid im1 maxLevels fsIm
  let p2 ← build_laplacian_pyramid im2 maxLevels fsIm
  let gm := build_gaussian_pyramid mask maxLevels fsMask
  let lout ← blendLoop gm.1 p1.1 p2.1 p1.1.length 0
  let blended ← laplacian_to_image lout p1.2 (List.replicate p1.1.length 1)
  Except.ok (clipIm blended)

/-- The round trip of the spec:
`laplacian_to_image(build_laplacian_pyramid(image, L, F), filter, ones(L))`. -/
def roundTrip (im : Image) (L fs : ℕ) : Except Err Image :=
  match build_laplacian_pyramid im L fs with
  | Except.ok p => laplacian_to_image p.1 p.2 (List.replicate L 1)
  | Except.error e => Except.error e

/-- Observe the error of a failed computation, if any. -/
def errOf {α : Type} : Except Err α → Option Err
  | Except.ok _ => none
  | Except.error e => some e

/-- Whether a computation succeeded. -/
def isOkE {α : Type} : Except Err α → Bool
  | Except.ok _ => true
  | Except.error _ => false

/-- Observe one sample of the image returned by a successful computation. -/
def okData (e : Except Err Image) (i j : ℕ) : Option ℚ :=
  match e with
  | Except.ok im => some (im.data i j)
  | Except.error _ => none

/-- Extensional equality of two images on their common grid. -/
def Image.eqOn (A B : Image) : Prop :=
  A.rows = B.rows ∧ A.cols = B.cols ∧
    ∀ i < A.rows, ∀ j < A.cols, A.data i j = B.data i j

instance (A B : Image) : Decidable (Image.eqOn A B) := by
  unfold Image.eqOn; infer_instance

/-! ### Kernel builder lemmas -/

theorem listConv_length (f g : List ℚ) :
    (listConv f g).length = f.length + g.length - 1 := by
  simp [listConv]

theorem getD_zero_nonneg (l : List ℚ) (h : ∀ x ∈ l, 0 ≤ x) (k : ℕ) :
    0 ≤ l.getD k 0 := by
  rcases lt_or_le k l.length with hk | hk
  · rw [List.getD_eq_getElem?_getD, List.getElem?_eq_getElem hk]
    exact h _ (List.getElem_mem hk)
  · rw [List.getD_eq_getElem?_getD, List.getElem?_eq_none hk]
    exact le_refl 0

theorem listConv_nonneg (f g : List ℚ) (hf : ∀ x ∈ f, 0 ≤ x)
    (hg : ∀ x ∈ g, 0 ≤ x) : ∀ x ∈ listConv f g, 0 ≤ x := by
  intro x hx
  simp only [listConv, List.mem_map, List.mem_range] at hx
  obtain ⟨n, _, rfl⟩ := hx
  exact Finset.sum_nonneg fun k _ =>
    mul_nonneg (getD_zero_nonneg f hf k) (getD_zero_nonneg g hg (n - k))

theorem listConv_getD_zero (f g : List ℚ) (hf : f ≠ []) (hg : g ≠ []) :
    (listConv f g).getD 0 0 = f.getD 0 0 * g.getD 0 0 := by
  have hlen : 0 < (listConv f g).length := by
    rw [listConv_length]
    have hf1 : 0 < f.length := List.length_pos.mpr hf
    have hg1 : 0 < g.length := List.length_pos.mpr hg
    omega
  rw [List.getD_eq_getElem?_getD, List.getElem?_eq_getElem hlen]
  simp only [listConv, List.getElem_map, List.getElem_range, Option.getD_some]
  rw [Finset.sum_range_one]

theorem growMask_length (n : ℕ) : (growMask n).length = n + 3 := by
  induction n with
  | zero => rfl
  | succ n ih => simp [growMask, listConv_length, ih]

theorem growMask_ne_nil (n : ℕ) : growMask n ≠ [] := by
  have := growMask_length n
  intro h
  rw [h] at this
  simp at this

theorem growMask_nonneg (n : ℕ) : ∀ x ∈ growMask n, 0 ≤ x := by
  have base : ∀ x ∈ ([1, 1] : List ℚ), 0 ≤ x := by
    intro x hx
    simp only [List.mem_cons, List.not_mem_nil, or_false] at hx
    rcases hx with h | h <;> (subst h; norm_num)
  induction n with
  | zero => exact listConv_nonneg _ _ base base
  | succ n ih => exact listConv_nonneg _ _ ih base

theorem growMask_getD_zero (n : ℕ) : (growMask n).getD 0 0 = 1 := by
  induction n with
  | zero =>
      rw [growMask, listConv_getD_zero] <;> simp
  | succ n ih =>
      rw [growMask, listConv_getD_zero _ _ (growMask_ne_nil n) (by simp), ih]
      simp

theorem getD_zero_le_sum (l : List ℚ) (h : ∀ x ∈ l, 0 ≤ x) :
    l.getD 0 0 ≤ l.sum := by
  cases l with
  | nil => simp
  | cons a t =>
      simp only [List.getD_cons_zero, List.sum_cons]
      have ht : 0 ≤ t.sum :=
        List.sum_nonneg fun x hx => h x (List.mem_cons_of_mem _ hx)
      linarith

theorem growMask_sum_pos (n : ℕ) : 0 < (growMask n).sum := by
  have h1 : (1 : ℚ) ≤ (growMask n).sum := by
    have := getD_zero_le_sum (growMask n) (growMask_nonneg n)
    rwa [growMask_getD_zero] at this
  linarith

theorem sum_map_div (l : List ℚ) (c : ℚ) :
    (l.map (fun x => x / c)).sum = l.sum / c := by
  induction l with
  | nil => simp
  | cons a t ih => simp [ih, add_div]

theorem make_filter_length (s : ℕ) :
    (make_filter_to_size s).length = s - 3 + 3 := by
  simp [make_filter_to_size, growMask_length]

theorem make_filter_nonneg (s : ℕ) : ∀ x ∈ make_filter_to_size s, 0 ≤ x := by
  intro x hx
  simp only [make_filter_to_size, List.mem_map] at hx
  obtain ⟨y, hy, rfl⟩ := hx
  exact div_nonneg (growMask_nonneg _ y hy) (le_of_lt (growMask_sum_pos _))

theorem make_filter_sum (s : ℕ) : (make_filter_to_size s).sum = 1 := by
  simp only [make_filter_to_size]
  rw [sum_map_div]
  exact div_self (ne_of_gt (growMask_sum_pos _))

/-! ### Claim C5 -/

/-- C5 counterexample: `make_filter_to_size 2` does not return a kernel of
length 2 equal to `[0.5, 0.5]`; it returns the length-3 kernel
`[0.25, 0.5, 0.25]`, because the growth loop `range(size - 3)` is already
empty at `size = 3` and the base mask is `[1, 2, 1]`. -/
theorem make_filter_size_two_cex :
    (make_filter_to_size 2).length ≠ 2 ∧
      make_filter_to_size 2 = [(1 : ℚ)/4, 1/2, 1/4] := by
  constructor
  · with_unfolding_all decide
  · with_unfolding_all decide

/-- C5 (amended): for every size `s ≥ 2`, `make_filter_to_size s` returns a
kernel of length `max s 3` (so exactly `s` for `s ≥ 3`, but 3 when
`s = 2`), whose elements are all nonnegative and sum to exactly 1. -/
theorem make_filter_props (s : ℕ) (hs : 2 ≤ s) :
    (make_filter_to_size s).length = max s 3 ∧
      (∀ x ∈ make_filter_to_size s, 0 ≤ x) ∧
        (make_filter_to_size s).sum = 1 := by
  refine ⟨?_, make_filter_nonneg s, make_filter_sum s⟩
  rw [make_filter_length]
  omega

/-- Witness for C5 (amended) at the concrete size 5. -/
theorem make_filter_props_witness :
    (make_filter_to_size 5).length = max 5 3 ∧
      (∀ x ∈ make_filter_to_size 5, 0 ≤ x) ∧
        (make_filter_to_size 5).sum = 1 :=
  make_filter_props 5 (by decide)

/-! ### Claim C8 -/

/-- C8 counterexample: `make_filter_to_size 1` does not fail; the code has
no size validation at all, and for any `size < 2` the growth loop
`range(size - 3)` is empty, so the normalized base mask `[0.25, 0.5, 0.25]`
is returned exactly as for sizes 2 and 3. -/
theorem make_filter_small_size_cex :
    make_filter_to_size 1 = [(1 : ℚ)/4, 1/2, 1/4] := by
  with_unfolding_all decide

/-- C8 (amended): for every size `s < 2`, `make_filter_to_size s` performs
no validation and returns the same kernel `[0.25, 0.5, 0.25]`. -/
theorem make_filter_small_size_eq (s : ℕ) (hs : s < 2) :
    make_filter_to_size s = [(1 : ℚ)/4, 1/2, 1/4] := by
  interval_cases s <;> with_unfolding_all decide

/-- Witness for C8 (amended) at the concrete size 0. -/
theorem make_filter_small_size_eq_witness :
    make_filter_to_size 0 = [(1 : ℚ)/4, 1/2, 1/4] :=
  make_filter_small_size_eq 0 (by decide)

/-! ### Claim C9 -/

/-- C9: with `max_levels = 1` the Gaussian pyramid is exactly the one-element
list holding the unchanged input image: the level loop `range(1, 1)` is
empty. -/
theorem gaussian_single_level (im : Image) (fs : ℕ) :
    (build_gaussian_pyramid im 1 fs).1 = [im] :=
  rfl

/-! ### Gaussian pyramid lemmas -/

theorem build_gaussian_pyramid_eq (im : Image) (L fs : ℕ) :
    build_gaussian_pyramid im L fs =
      (im :: gaussianLoop im (make_filter_to_size fs) im.rows im.cols (L - 1) 1,
        make_filter_to_size fs) := rfl

theorem gCond_iff (r c i : ℕ) :
    gCond r c i ↔ (16 * 2 ^ i < r ∨ 16 * 2 ^ i < c) := by
  unfold gCond
  have hp : (0 : ℚ) < 2 ^ i := by positivity
  rw [lt_div_iff₀ hp, lt_div_iff₀ hp]
  constructor
  · rintro (h | h)
    · left; exact_mod_cast h
    · right; exact_mod_cast h
  · rintro (h | h)
    · left; exact_mod_cast h
    · right; exact_mod_cast h

theorem gCond_anti (r c : ℕ) {i j : ℕ} (hij : i ≤ j) (h : gCond r c j) :
    gCond r c i := by
  rw [gCond_iff] at h ⊢
  have hpow : 2 ^ i ≤ 2 ^ j := Nat.pow_le_pow_right (by norm_num) hij
  omega

theorem gaussianLoop_length_le (im : Image) (fv : List ℚ) (r c : ℕ) :
    ∀ fuel i, (gaussianLoop im fv r c fuel i).length ≤ fuel := by
  intro fuel
  induction fuel with
  | zero => intro i; simp [gaussianLoop]
  | succ n ih =>
      intro i
      rw [gaussianLoop]
      split
      · simp only [List.length_cons]
        exact Nat.succ_le_succ (ih (i + 1))
      · simp

theorem gaussianLoop_length_eq (im : Image) (fv : List ℚ) (r c : ℕ) :
    ∀ fuel i₀, (∀ j, i₀ ≤ j → j < i₀ + fuel → gCond r c j) →
      (gaussianLoop im fv r c fuel i₀).length = fuel := by
  intro fuel
  induction fuel with
  | zero => intro i₀ _; rfl
  | succ n ih =>
      intro i₀ h
      rw [gaussianLoop, if_pos (h i₀ le_rfl (by omega))]
      simp only [List.length_cons]
      rw [ih (i₀ + 1) (fun j hj hj2 => h j (by omega) (by omega))]

theorem gaussianLoop_getD (im : Image) (fv : List ℚ) (r c : ℕ) :
    ∀ fuel i₀ k, k < (gaussianLoop im fv r c fuel i₀).length →
      (gaussianLoop im fv r c fuel i₀).getD k dImg =
        reduce_image im fv (i₀ + k) := by
  intro fuel
  induction fuel with
  | zero => intro i₀ k h; simp [gaussianLoop] at h
  | succ n ih =>
      intro i₀ k h
      rw [gaussianLoop] at h ⊢
      by_cases hc : gCond r c i₀
      · rw [if_pos hc] at h ⊢
        cases k with
        | zero => simp
        | succ k =>
            simp only [List.getD_cons_succ]
            simp only [List.length_cons, Nat.succ_lt_succ_iff] at h
            rw [ih (i₀ + 1) k h, show i₀ + 1 + k = i₀ + (k + 1) by omega]
      · rw [if_neg hc] at h
        simp at h

theorem gaussianLoop_lt_length_iff (im : Image) (fv : List ℚ) (r c : ℕ) :
    ∀ fuel i₀ k, k < fuel →
      (k < (gaussianLoop im fv r c fuel i₀).length ↔ gCond r c (i₀ + k)) := by
  intro fuel
  induction fuel with
  | zero => intro i₀ k h; omega
  | succ n ih =>
      intro i₀ k hk
      rw [gaussianLoop]
      by_cases hc : gCond r c i₀
      · rw [if_pos hc]
        cases k with
        | zero =>
            simp only [List.length_cons]
            exact iff_of_true (by omega) (by simpa using hc)
        | succ k =>
            simp only [List.length_cons, Nat.succ_lt_succ_iff]
            rw [ih (i₀ + 1) k (by omega), show i₀ + 1 + k = i₀ + (k + 1) by omega]
      · rw [if_neg hc]
        simp only [List.length_nil]
        refine iff_of_false (by omega) ?_
        intro hg
        exact hc (gCond_anti r c (by omega) hg)

/-! ### Claim C4 -/

/-- C4: a reduced level is present at index `i` (for `1 ≤ i < max_levels`)
exactly when the resolution test on the original dimensions passes at `i`
(`rows / 2^i > 16 or cols / 2^i > 16`, the proposition `gCond`), and the
pyramid never exceeds `max_levels` levels; the loop stops at the first
failing index, so the pyramid may be shorter than `max_levels`. -/
theorem gaussian_stop_rule (im : Image) (L fs i : ℕ) (h1 : 1 ≤ i)
    (h2 : i < L) :
    ((i < (build_gaussian_pyramid im L fs).1.length) ↔
        gCond im.rows im.cols i) ∧
      (build_gaussian_pyramid im L fs).1.length ≤ L := by
  rw [build_gaussian_pyramid_eq]
  simp only [List.length_cons]
  constructor
  · have hiff := gaussianLoop_lt_length_iff im (make_filter_to_size fs)
      im.rows im.cols (L - 1) 1 (i - 1) (by omega)
    rw [show 1 + (i - 1) = i by omega] at hiff
    constructor
    · intro hlt
      exact hiff.mp (by omega)
    · intro hg
      have := hiff.mpr hg
      omega
  · have := gaussianLoop_length_le im (make_filter_to_size fs)
      im.rows im.cols (L - 1) 1
    omega

/-- Witness for C4 on a concrete 40 by 40 image with `max_levels = 3` at
level index 1: the level exists exactly because `40 / 2 > 16`. -/
theorem gaussian_stop_rule_witness :
    ((1 < (build_gaussian_pyramid (constImg 40 40 0) 3 3).1.length) ↔
        gCond (constImg 40 40 0).rows (constImg 40 40 0).cols 1) ∧
      (build_gaussian_pyramid (constImg 40 40 0) 3 3).1.length ≤ 3 :=
  gaussian_stop_rule (constImg 40 40 0) 3 3 1 (by decide) (by decide)

/-! ### Claim C3 -/

/-- C3: every Gaussian level `i ≥ 1` that the builder produces equals the
original full-resolution image blurred once (row convolution then column
convolution with the pyramid kernel) and then subsampled with stride `2^i`
starting at index 0 on both axes, not a cascade of the previous level. -/
theorem gaussian_level_from_original (im : Image) (L fs i : ℕ) (h1 : 1 ≤ i)
    (h2 : i < (build_gaussian_pyramid im L fs).1.length) :
    (build_gaussian_pyramid im L fs).1.getD i dImg =
      strideSample
        (convV (convH im (make_filter_to_size fs)) (make_filter_to_size fs))
        (2 ^ i) := by
  rw [build_gaussian_pyramid_eq] at h2 ⊢
  simp only [List.length_cons] at h2
  cases i with
  | zero => omega
  | succ k =>
      simp only [List.getD_cons_succ]
      rw [gaussianLoop_getD im (make_filter_to_size fs) im.rows im.cols
          (L - 1) 1 k (by omega), show 1 + k = k + 1 by omega]
      rfl

/-- Witness for C3 on a concrete 1 by 33 image with `max_levels = 2` at
level 1. -/
theorem gaussian_level_from_original_witness :
    (build_gaussian_pyramid (constImg 1 33 0) 2 3).1.getD 1 dImg =
      strideSample
        (convV (convH (constImg 1 33 0) (make_filter_to_size 3))
          (make_filter_to_size 3))
        (2 ^ 1) :=
  gaussian_level_from_original (constImg 1 33 0) 2 3 1 (by decide)
    (by with_unfolding_all decide)

/-! ### Laplacian pyramid lemmas -/

theorem exBind_ok {α β : Type} (a : α) (f : α → Except Err β) :
    (Except.ok a >>= f) = f a := rfl

theorem exBind_error {α β : Type} (e : Err) (f : α → Except Err β) :
    ((Except.error e : Except Err α) >>= f) = Except.error e := rfl

theorem getE_ok_getD {α : Type} {l : List α} {i : ℕ} {x : α} (d : α)
    (h : getE l i = Except.ok x) : l.getD i d = x := by
  unfold getE at h
  cases hg : l.get? i with
  | none => rw [hg] at h; cases h
  | some y =>
      rw [hg] at h
      cases h
      rw [List.getD_eq_getElem?_getD, ← List.get?_eq_getElem?, hg]
      rfl

theorem getE_eq_error {α : Type} (l : List α) (i : ℕ) (h : l.length ≤ i) :
    getE l i = Except.error Err.indexError := by
  unfold getE
  rw [List.get?_eq_getElem?, List.getElem?_eq_none h]

theorem getE_eq_ok_getD (l : List Image) (i : ℕ) (h : i < l.length) :
    getE l i = Except.ok (l.getD i dImg) := by
  unfold getE
  rw [List.get?_eq_getElem?, List.getElem?_eq_getElem h]
  rw [List.getD_eq_getElem?_getD, List.getElem?_eq_getElem h]
  rfl

theorem build_gaussian_snd (im : Image) (L fs : ℕ) :
    (build_gaussian_pyramid im L fs).2 = make_filter_to_size fs := rfl

theorem build_gaussian_length_pos (im : Image) (L fs : ℕ) :
    1 ≤ (build_gaussian_pyramid im L fs).1.length := by
  rw [build_gaussian_pyramid_eq]
  simp

theorem lapLoop_ne_ok_of_short (g : List Image) (fv : List ℚ) :
    ∀ fuel i, 1 ≤ fuel → g.length ≤ i + fuel →
      ∀ l, lapLoop g fv fuel i ≠ Except.ok l := by
  intro fuel
  induction fuel with
  | zero => intro i h; omega
  | succ n ih =>
      intro i _ hlen l hok
      rw [lapLoop] at hok
      rcases Nat.lt_or_ge (i + 1) g.length with hi | hi
      · rw [getE_eq_ok_getD g (i + 1) hi, exBind_ok] at hok
        rw [getE_eq_ok_getD g i (by omega), exBind_ok] at hok
        cases hsub : imSub (g.getD i dImg)
            (expand_image (g.getD (i + 1) dImg) fv) with
        | error e => rw [hsub, exBind_error] at hok; cases hok
        | ok li =>
            rw [hsub, exBind_ok] at hok
            cases hrest : lapLoop g fv n (i + 1) with
            | error e => rw [hrest, exBind_error] at hok; cases hok
            | ok rest =>
                exact ih (i + 1) (by omega) (by omega) rest hrest
      · rw [getE_eq_error g (i + 1) hi, exBind_error] at hok
        cases hok

theorem lapLoop_ok_spec (g : List Image) (fv : List ℚ) :
    ∀ fuel i l, lapLoop g fv fuel i = Except.ok l →
      l.length = fuel ∧
        ∀ k, k < fuel →
          imSub (g.getD (i + k) dImg)
              (expand_image (g.getD (i + k + 1) dImg) fv) =
            Except.ok (l.getD k dImg) := by
  intro fuel
  induction fuel with
  | zero =>
      intro i l h
      rw [lapLoop] at h
      cases h
      exact ⟨rfl, by omega⟩
  | succ n ih =>
      intro i l h
      rw [lapLoop] at h
      cases hg1 : getE g (i + 1) with
      | error e => rw [hg1, exBind_error] at h; cases h
      | ok g1 =>
          rw [hg1, exBind_ok] at h
          cases hg0 : getE g i with
          | error e => rw [hg0, exBind_error] at h; cases h
          | ok g0 =>
              rw [hg0, exBind_ok] at h
              cases hsub : imSub g0 (expand_image g1 fv) with
              | error e => rw [hsub, exBind_error] at h; cases h
              | ok li =>
                  rw [hsub, exBind_ok] at h
                  cases hrest : lapLoop g fv n (i + 1) with
                  | error e => rw [hrest, exBind_error] at h; cases h
                  | ok rest =>
                      rw [hrest, exBind_ok] at h
                      cases h
                      obtain ⟨hlen, hspec⟩ := ih (i + 1) rest hrest
                      refine ⟨by simp [hlen], ?_⟩
                      intro k hk
                      cases k with
                      | zero =>
                          simp only [Nat.add_zero, List.getD_cons_zero]
                          rw [getE_ok_getD dImg hg0,
                            getE_ok_getD dImg hg1]
                          exact hsub
                      | succ k =>
                          simp only [List.getD_cons_succ]
                          have hs := hspec k (by omega)
                          rw [show i + (k + 1) = i + 1 + k by omega,
                            show i + 1 + k + 1 = i + 1 + (k + 1) - 0 by omega]
                          simpa using hs

theorem build_laplacian_ok_spec {im : Image} {L fs : ℕ} {lp : List Image}
    {fv : List ℚ} (h : build_laplacian_pyramid im L fs = Except.ok (lp, fv)) :
    fv = make_filter_to_size fs ∧
      ∃ ls, lapLoop (build_gaussian_pyramid im L fs).1 (make_filter_to_size fs)
            (L - 1) 0 = Except.ok ls ∧
        lp = ls ++ [(build_gaussian_pyramid im L fs).1.getLastD dImg] := by
  simp only [build_laplacian_pyramid] at h
  rw [build_gaussian_snd] at h
  cases hl : lapLoop (build_gaussian_pyramid im L fs).1 (make_filter_to_size fs)
      (L - 1) 0 with
  | error e => rw [hl, exBind_error] at h; cases h
  | ok ls =>
      rw [hl, exBind_ok] at h
      rw [Except.ok.injEq, Prod.mk.injEq] at h
      obtain ⟨hlp, hfv⟩ := h
      exact ⟨hfv.symm, ls, rfl, hlp.symm⟩

theorem build_gaussian_length_le (im : Image) (L fs : ℕ) :
    (build_gaussian_pyramid im L fs).1.length ≤ L - 1 + 1 := by
  rw [build_gaussian_pyramid_eq]
  simp only [List.length_cons]
  have := gaussianLoop_length_le im (make_filter_to_size fs) im.rows im.cols
    (L - 1) 1
  omega

theorem build_gaussian_length_of_lap_ok {im : Image} {L fs : ℕ}
    {ls : List Image}
    (hl : lapLoop (build_gaussian_pyramid im L fs).1 (make_filter_to_size fs)
        (L - 1) 0 = Except.ok ls) :
    (build_gaussian_pyramid im L fs).1.length = L - 1 + 1 := by
  rcases Nat.eq_zero_or_pos (L - 1) with h0 | hpos
  · have h1 := build_gaussian_length_pos im L fs
    have h2 := build_gaussian_length_le im L fs
    omega
  · by_contra hne
    have h2 := build_gaussian_length_le im L fs
    exact lapLoop_ne_ok_of_short _ _ (L - 1) 0 hpos (by omega) ls hl

/-! ### Claim C10 -/

/-- C10 counterexample: on a 33 by 1 zero image with `max_levels = 3` the
Gaussian pyramid stops early (2 of 3 levels), but the failure of
`build_laplacian_pyramid` is a broadcasting shape error in the residual
subtraction `g_pyr[0] - expand(g_pyr[1])` (shapes 33 by 1 versus 34 by 2),
which is raised before the loop ever reaches the out-of-range index. -/
theorem lap_shape_error_not_index_cex :
    (build_gaussian_pyramid (constImg 33 1 0) 3 3).1.length < 3 ∧
      errOf (build_laplacian_pyramid (constImg 33 1 0) 3 3) =
        some Err.shapeMismatch ∧
      errOf (build_laplacian_pyramid (constImg 33 1 0) 3 3) ≠
        some Err.indexError := by
  refine ⟨?_, ?_, ?_⟩
  · with_unfolding_all decide
  · with_unfolding_all decide
  · with_unfolding_all decide

/-- C10 (amended): whenever the Gaussian pyramid stops early at the
resolution floor (fewer than `max_levels` levels), the unconditional
`max_levels - 1` residual loop of `build_laplacian_pyramid` fails with an
error (an out-of-bounds index on `gaussian[i+1]`, or a shape-mismatch in an
earlier residual subtraction) instead of returning a shorter Laplacian
pyramid. -/
theorem lap_fails_of_short_gaussian (im : Image) (L fs : ℕ)
    (h : (build_gaussian_pyramid im L fs).1.length < L) :
    ∃ e, build_laplacian_pyramid im L fs = Except.error e := by
  have h1 := build_gaussian_length_pos im L fs
  cases hl : lapLoop (build_gaussian_pyramid im L fs).1 (make_filter_to_size fs)
      (L - 1) 0 with
  | error e =>
      refine ⟨e, ?_⟩
      simp only [build_laplacian_pyramid]
      rw [build_gaussian_snd, hl, exBind_error]
  | ok ls =>
      exact absurd hl
        (lapLoop_ne_ok_of_short _ _ (L - 1) 0 (by omega) (by omega) ls)

/-- Witness for C10 (amended) on a concrete 5 by 5 image with
`max_levels = 2`. -/
theorem lap_fails_of_short_gaussian_witness :
    ∃ e, build_laplacian_pyramid (constImg 5 5 0) 2 3 = Except.error e :=
  lap_fails_of_short_gaussian (constImg 5 5 0) 2 3
    (by with_unfolding_all decide)

/-! ### Claim C2 -/

/-- C2 counterexample: on a 1 by 1 image with `max_levels = 2` the Gaussian
pyramid has a single level, and `build_laplacian_pyramid` does not return a
pyramid of the same length: it fails with an index error, because its
residual loop unconditionally reads `g_pyr[1]`. -/
theorem lap_len_mismatch_cex :
    (build_gaussian_pyramid (constImg 1 1 (1/2)) 2 3).1.length = 1 ∧
      errOf (build_laplacian_pyramid (constImg 1 1 (1/2)) 2 3) =
        some Err.indexError := by
  constructor
  · with_unfolding_all decide
  · with_unfolding_all decide

/-- C2 (amended): whenever `build_laplacian_pyramid` returns at all, the
returned pyramid has the same length as the Gaussian pyramid built from the
same arguments, level `i` (for every `i` below the last) is the numpy
subtraction `gaussian[i] - expand(gaussian[i+1], filter)`, and the last
level is the coarsest Gaussian level verbatim. -/
theorem lap_structure_of_ok (im : Image) (L fs : ℕ) (lp : List Image)
    (fv : List ℚ)
    (h : build_laplacian_pyramid im L fs = Except.ok (lp, fv)) :
    lp.length = (build_gaussian_pyramid im L fs).1.length ∧
      (∀ i, i + 1 < lp.length →
        imSub ((build_gaussian_pyramid im L fs).1.getD i dImg)
            (expand_image ((build_gaussian_pyramid im L fs).1.getD (i + 1) dImg)
              fv) =
          Except.ok (lp.getD i dImg)) ∧
      lp.getLastD dImg = (build_gaussian_pyramid im L fs).1.getLastD dImg := by
  obtain ⟨hfv, ls, hl, hlp⟩ := build_laplacian_ok_spec h
  obtain ⟨hlen, hspec⟩ := lapLoop_ok_spec _ _ (L - 1) 0 ls hl
  have hg := build_gaussian_length_of_lap_ok hl
  subst hfv hlp
  refine ⟨?_, ?_, ?_⟩
  · simp [hlen, hg]
  · intro i hi
    simp only [List.length_append, List.length_cons, List.length_nil,
      hlen] at hi
    have hs := hspec i (by omega)
    simp only [Nat.zero_add] at hs
    have hgetD : (ls ++
          [(build_gaussian_pyramid im L fs).1.getLastD dImg]).getD i dImg =
        ls.getD i dImg := by
      rw [List.getD_eq_getElem?_getD,
        List.getElem?_append_left (by omega : i < ls.length),
        ← List.getD_eq_getElem?_getD]
    rw [hgetD]
    exact hs
  · rw [List.getLastD_concat]

/-- Witness for C2 (amended) on a concrete 3 by 3 image with
`max_levels = 1`, where the Laplacian pyramid is the single-level list
holding the input image. -/
theorem lap_structure_of_ok_witness :
    ([constImg 3 3 (1/4)] : List Image).length =
        (build_gaussian_pyramid (constImg 3 3 (1/4)) 1 3).1.length ∧
      (∀ i, i + 1 < ([constImg 3 3 (1/4)] : List Image).length →
        imSub ((build_gaussian_pyramid (constImg 3 3 (1/4)) 1 3).1.getD i dImg)
            (expand_image
              ((build_gaussian_pyramid (constImg 3 3 (1/4)) 1 3).1.getD (i + 1)
                dImg)
              (make_filter_to_size 3)) =
          Except.ok (([constImg 3 3 (1/4)] : List Image).getD i dImg)) ∧
      ([constImg 3 3 (1/4)] : List Image).getLastD dImg =
        (build_gaussian_pyramid (constImg 3 3 (1/4)) 1 3).1.getLastD dImg :=
  lap_structure_of_ok (constImg 3 3 (1/4)) 1 3 [constImg 3 3 (1/4)]
    (make_filter_to_size 3) rfl

/-! ### Grid equality and congruence of the resampling operators -/

theorem reflIdx_lt (n : ℕ) (t : ℤ) (hn : 0 < n) : reflIdx n t < n := by
  unfold reflIdx
  rw [if_neg (by omega)]
  have hge : (0 : ℤ) ≤ t.emod (2 * n) := Int.emod_nonneg t (by omega)
  have hlt : t.emod (2 * n) < 2 * n := Int.emod_lt_of_pos t (by omega)
  dsimp only
  split
  · next h => omega
  · next h => omega

theorem eqOn_refl (A : Image) : A.eqOn A :=
  ⟨rfl, rfl, fun _ _ _ _ => rfl⟩

theorem convH_eqOn {A B : Image} (w : List ℚ) (h : A.eqOn B) :
    (convH A w).eqOn (convH B w) := by
  obtain ⟨hr, hc, hd⟩ := h
  refine ⟨hr, hc, ?_⟩
  intro i hi j hj
  simp only [convH] at hi hj ⊢
  apply Finset.sum_congr rfl
  intro k _
  rw [← hr, ← hc]
  congr 1
  exact hd _ (reflIdx_lt _ _ (by omega)) _ (reflIdx_lt _ _ (by omega))

theorem convV_eqOn {A B : Image} (w : List ℚ) (h : A.eqOn B) :
    (convV A w).eqOn (convV B w) := by
  obtain ⟨hr, hc, hd⟩ := h
  refine ⟨hr, hc, ?_⟩
  intro i hi j hj
  simp only [convV] at hi hj ⊢
  apply Finset.sum_congr rfl
  intro k _
  rw [← hr, ← hc]
  congr 1
  exact hd _ (reflIdx_lt _ _ (by omega)) _ (reflIdx_lt _ _ (by omega))

theorem expand_eqOn {A B : Image} (fv : List ℚ) (h : A.eqOn B) :
    (expand_image A fv).eqOn (expand_image B fv) := by
  obtain ⟨hr, hc, hd⟩ := h
  simp only [expand_image]
  apply convV_eqOn
  apply convH_eqOn
  refine ⟨by rw [hr], by rw [hc], ?_⟩
  intro i hi j hj
  simp only [] at hi hj ⊢
  split
  · next hev => exact hd _ (by omega) _ (by omega)
  · rfl

theorem smulIm_one_eqOn (A : Image) : (smulIm 1 A).eqOn A :=
  ⟨rfl, rfl, fun _ _ _ _ => mul_one _⟩

/-! ### Elementwise operations on aligned shapes -/

theorem bix_lt {n i : ℕ} (h : i < n) : bix n i = i := by
  unfold bix
  split
  · next h1 => omega
  · rfl

theorem bdim_eq (a : ℕ) : bdim a a = some a := by
  unfold bdim
  rw [if_pos rfl]

theorem ewise_ok_of_dims {A B : Image} (f : ℚ → ℚ → ℚ) (hr : A.rows = B.rows)
    (hc : A.cols = B.cols) :
    ewise f A B = Except.ok
      ⟨A.rows, A.cols, fun i j =>
        f (A.data (bix A.rows i) (bix A.cols j))
          (B.data (bix B.rows i) (bix B.cols j))⟩ := by
  unfold ewise
  rw [show bdim A.rows B.rows = some A.rows by rw [← hr, bdim_eq],
    show bdim A.cols B.cols = some A.cols by rw [← hc, bdim_eq]]

theorem imSub_ok_dims {A B C : Image} (hr : A.rows = B.rows)
    (hc : A.cols = B.cols) (h : imSub A B = Except.ok C) :
    C.rows = A.rows ∧ C.cols = A.cols ∧
      ∀ i < A.rows, ∀ j < A.cols, C.data i j = A.data i j - B.data i j := by
  rw [imSub, ewise_ok_of_dims _ hr hc] at h
  injection h with h
  subst h
  refine ⟨rfl, rfl, ?_⟩
  intro i hi j hj
  simp only []
  rw [bix_lt hi, bix_lt hj, bix_lt (hr ▸ hi), bix_lt (hc ▸ hj)]

/-! ### Dimension arithmetic for exactly divisible images -/

theorem ceil_div_of_dvd {s r : ℕ} (hs : 0 < s) (h : s ∣ r) :
    (r + s - 1) / s = r / s := by
  obtain ⟨m, rfl⟩ := h
  rw [Nat.mul_div_cancel_left m hs,
    show s * m + s - 1 = s * m + (s - 1) by omega,
    Nat.mul_add_div hs, Nat.div_eq_of_lt (by omega)]
  omega

theorem double_div_pow {R k : ℕ} (h : 2 ^ (k + 1) ∣ R) :
    2 * (R / 2 ^ (k + 1)) = R / 2 ^ k := by
  obtain ⟨t, rfl⟩ := h
  rw [Nat.mul_div_cancel_left t (by positivity), pow_succ, mul_assoc,
    Nat.mul_div_cancel_left _ (by positivity : 0 < 2 ^ k)]

theorem reduce_image_rows (im : Image) (fv : List ℚ) (i : ℕ) :
    (reduce_image im fv i).rows = (im.rows + 2 ^ i - 1) / 2 ^ i := rfl

theorem reduce_image_cols (im : Image) (fv : List ℚ) (i : ℕ) :
    (reduce_image im fv i).cols = (im.cols + 2 ^ i - 1) / 2 ^ i := rfl

theorem expand_image_rows (im : Image) (fv : List ℚ) :
    (expand_image im fv).rows = 2 * im.rows := rfl

theorem expand_image_cols (im : Image) (fv : List ℚ) :
    (expand_image im fv).cols = 2 * im.cols := rfl

/-! ### Gaussian pyramid levels under full depth and exact divisibility -/

theorem build_gaussian_getD_zero (im : Image) (L fs : ℕ) :
    (build_gaussian_pyramid im L fs).1.getD 0 dImg = im := by
  rw [build_gaussian_pyramid_eq]
  rfl

theorem build_gaussian_getD_succ (im : Image) (L fs k : ℕ)
    (h : k + 1 < (build_gaussian_pyramid im L fs).1.length) :
    (build_gaussian_pyramid im L fs).1.getD (k + 1) dImg =
      reduce_image im (make_filter_to_size fs) (k + 1) := by
  rw [build_gaussian_pyramid_eq] at h ⊢
  simp only [List.length_cons] at h
  simp only [List.getD_cons_succ]
  rw [gaussianLoop_getD im (make_filter_to_size fs) im.rows im.cols (L - 1) 1 k
    (by omega), show 1 + k = k + 1 by omega]

theorem build_gaussian_full_length (im : Image) (L fs : ℕ) (hL : 1 ≤ L)
    (hcond : ∀ i, 1 ≤ i → i < L → gCond im.rows im.cols i) :
    (build_gaussian_pyramid im L fs).1.length = L := by
  rw [build_gaussian_pyramid_eq]
  simp only [List.length_cons]
  rw [gaussianLoop_length_eq im (make_filter_to_size fs) im.rows im.cols
    (L - 1) 1 (fun j hj hj2 => hcond j hj (by omega))]
  omega

theorem gaussian_level_rows (im : Image) (L fs : ℕ)
    (hdr : 2 ^ (L - 1) ∣ im.rows) (i : ℕ) (hiL : i < L)
    (hi : i < (build_gaussian_pyramid im L fs).1.length) :
    ((build_gaussian_pyramid im L fs).1.getD i dImg).rows =
      im.rows / 2 ^ i := by
  cases i with
  | zero => rw [build_gaussian_getD_zero]; simp
  | succ k =>
      rw [build_gaussian_getD_succ im L fs k hi, reduce_image_rows]
      exact ceil_div_of_dvd (by positivity)
        (dvd_trans (pow_dvd_pow 2 (by omega : k + 1 ≤ L - 1)) hdr)

theorem gaussian_level_cols (im : Image) (L fs : ℕ)
    (hdc : 2 ^ (L - 1) ∣ im.cols) (i : ℕ) (hiL : i < L)
    (hi : i < (build_gaussian_pyramid im L fs).1.length) :
    ((build_gaussian_pyramid im L fs).1.getD i dImg).cols =
      im.cols / 2 ^ i := by
  cases i with
  | zero => rw [build_gaussian_getD_zero]; simp
  | succ k =>
      rw [build_gaussian_getD_succ im L fs k hi, reduce_image_cols]
      exact ceil_div_of_dvd (by positivity)
        (dvd_trans (pow_dvd_pow 2 (by omega : k + 1 ≤ L - 1)) hdc)

/-! ### The residual loop succeeds on aligned shapes -/

theorem lapLoop_ok_of_aligned (g : List Image) (fv : List ℚ) (R C : ℕ)
    (hdR : ∀ k, k < g.length → (g.getD k dImg).rows = R / 2 ^ k)
    (hdC : ∀ k, k < g.length → (g.getD k dImg).cols = C / 2 ^ k)
    (hvR : ∀ k, k + 1 < g.length → 2 * (R / 2 ^ (k + 1)) = R / 2 ^ k)
    (hvC : ∀ k, k + 1 < g.length → 2 * (C / 2 ^ (k + 1)) = C / 2 ^ k) :
    ∀ fuel i, i + fuel < g.length →
      ∃ ls, lapLoop g fv fuel i = Except.ok ls := by
  intro fuel
  induction fuel with
  | zero => intro i h; exact ⟨[], rfl⟩
  | succ n ih =>
      intro i h
      rw [lapLoop]
      rw [getE_eq_ok_getD g (i + 1) (by omega), exBind_ok]
      rw [getE_eq_ok_getD g i (by omega), exBind_ok]
      have hrows : (g.getD i dImg).rows =
          (expand_image (g.getD (i + 1) dImg) fv).rows := by
        rw [expand_image_rows, hdR i (by omega), hdR (i + 1) (by omega),
          hvR i (by omega)]
      have hcols : (g.getD i dImg).cols =
          (expand_image (g.getD (i + 1) dImg) fv).cols := by
        rw [expand_image_cols, hdC i (by omega), hdC (i + 1) (by omega),
          hvC i (by omega)]
      rw [imSub, ewise_ok_of_dims _ hrows hcols, exBind_ok]
      obtain ⟨ls, hls⟩ := ih (i + 1) (by omega)
      rw [hls, exBind_ok]
      exact ⟨_, rfl⟩

/-! ### The reconstruction ladder -/

theorem getD_concat_left (l l' : List Image) {i : ℕ} (h : i < l.length) :
    (l ++ l').getD i dImg = l.getD i dImg := by
  rw [List.getD_eq_getElem?_getD, List.getElem?_append_left h,
    ← List.getD_eq_getElem?_getD]

theorem getE_replicate_one (n idx : ℕ) (h : idx < n) :
    getE (List.replicate n (1 : ℚ)) idx = Except.ok 1 := by
  unfold getE
  rw [List.get?_eq_getElem?, List.getElem?_replicate, if_pos h]

theorem l2iStep_ladder (g ls : List Image) (fv : List ℚ) (R C : ℕ)
    (hlslen : ls.length + 1 = g.length)
    (hspec : ∀ k, k + 1 < g.length →
        imSub (g.getD k dImg) (expand_image (g.getD (k + 1) dImg) fv) =
          Except.ok (ls.getD k dImg))
    (hdR : ∀ k, k < g.length → (g.getD k dImg).rows = R / 2 ^ k)
    (hdC : ∀ k, k < g.length → (g.getD k dImg).cols = C / 2 ^ k)
    (hvR : ∀ k, k + 1 < g.length → 2 * (R / 2 ^ (k + 1)) = R / 2 ^ k)
    (hvC : ∀ k, k + 1 < g.length → 2 * (C / 2 ^ (k + 1)) = C / 2 ^ k)
    (idx : ℕ) (hidx : idx + 1 < g.length) (r : Image)
    (hr : r.eqOn (g.getD (idx + 1) dImg)) :
    ∃ out,
      l2iStep (ls ++ [g.getLastD dImg]) (List.replicate g.length 1) fv idx r =
        Except.ok out ∧ out.eqOn (g.getD idx dImg) := by
  have hsub := hspec idx hidx
  have hrowsEq : (g.getD idx dImg).rows =
      (expand_image (g.getD (idx + 1) dImg) fv).rows := by
    rw [expand_image_rows, hdR idx (by omega), hdR (idx + 1) hidx,
      hvR idx hidx]
  have hcolsEq : (g.getD idx dImg).cols =
      (expand_image (g.getD (idx + 1) dImg) fv).cols := by
    rw [expand_image_cols, hdC idx (by omega), hdC (idx + 1) hidx,
      hvC idx hidx]
  obtain ⟨hlr, hlc, hldata⟩ := imSub_ok_dims hrowsEq hcolsEq hsub
  obtain ⟨hrr, hrc, hrd⟩ := hr
  obtain ⟨her, hec, hedata⟩ :=
    expand_eqOn fv (⟨hrr, hrc, hrd⟩ : r.eqOn (g.getD (idx + 1) dImg))
  unfold l2iStep
  rw [getE_eq_ok_getD _ idx (by
    simp only [List.length_append, List.length_cons, List.length_nil]
    omega), exBind_ok]
  rw [getD_concat_left _ _ (by omega : idx < ls.length)]
  rw [getE_replicate_one g.length idx (by omega), exBind_ok]
  have haddR : (smulIm 1 (ls.getD idx dImg)).rows =
      (expand_image r fv).rows := by
    show (ls.getD idx dImg).rows = (expand_image r fv).rows
    rw [expand_image_rows, hrr, hlr, hdR idx (by omega), hdR (idx + 1) hidx,
      hvR idx hidx]
  have haddC : (smulIm 1 (ls.getD idx dImg)).cols =
      (expand_image r fv).cols := by
    show (ls.getD idx dImg).cols = (expand_image r fv).cols
    rw [expand_image_cols, hrc, hlc, hdC idx (by omega), hdC (idx + 1) hidx,
      hvC idx hidx]
  rw [imAdd, ewise_ok_of_dims _ haddR haddC]
  refine ⟨_, rfl, ?_, ?_, ?_⟩
  · show (ls.getD idx dImg).rows = (g.getD idx dImg).rows
    exact hlr
  · show (ls.getD idx dImg).cols = (g.getD idx dImg).cols
    exact hlc
  · intro i hi j hj
    have hiA : i < (smulIm 1 (ls.getD idx dImg)).rows := hi
    have hjA : j < (smulIm 1 (ls.getD idx dImg)).cols := hj
    have hiB : i < (expand_image r fv).rows := by rw [← haddR]; exact hi
    have hjB : j < (expand_image r fv).cols := by rw [← haddC]; exact hj
    have hiG : i < (g.getD idx dImg).rows := by rw [← hlr]; exact hi
    have hjG : j < (g.getD idx dImg).cols := by rw [← hlc]; exact hj
    show (fun x y => x + y)
        ((smulIm 1 (ls.getD idx dImg)).data
          (bix (smulIm 1 (ls.getD idx dImg)).rows i)
          (bix (smulIm 1 (ls.getD idx dImg)).cols j))
        ((expand_image r fv).data (bix (expand_image r fv).rows i)
          (bix (expand_image r fv).cols j)) =
      (g.getD idx dImg).data i j
    rw [bix_lt hiA, bix_lt hjA, bix_lt hiB, bix_lt hjB]
    show (ls.getD idx dImg).data i j * 1 + (expand_image r fv).data i j =
      (g.getD idx dImg).data i j
    rw [mul_one, hldata i hiG j hjG, hedata i hiB j hjB]
    ring

theorem l2iLoop_ladder (g ls : List Image) (fv : List ℚ) (R C : ℕ)
    (hlslen : ls.length + 1 = g.length)
    (hspec : ∀ k, k + 1 < g.length →
        imSub (g.getD k dImg) (expand_image (g.getD (k + 1) dImg) fv) =
          Except.ok (ls.getD k dImg))
    (hdR : ∀ k, k < g.length → (g.getD k dImg).rows = R / 2 ^ k)
    (hdC : ∀ k, k < g.length → (g.getD k dImg).cols = C / 2 ^ k)
    (hvR : ∀ k, k + 1 < g.length → 2 * (R / 2 ^ (k + 1)) = R / 2 ^ k)
    (hvC : ∀ k, k + 1 < g.length → 2 * (C / 2 ^ (k + 1)) = C / 2 ^ k) :
    ∀ idx, idx + 1 < g.length → ∀ r : Image,
      r.eqOn (g.getD (idx + 1) dImg) →
      ∃ out,
        l2iLoop (ls ++ [g.getLastD dImg]) (List.replicate g.length 1) fv idx
            r = Except.ok out ∧
          out.eqOn (g.getD 0 dImg) := by
  intro idx
  induction idx with
  | zero =>
      intro h r hr
      obtain ⟨out, hstep, heq⟩ := l2iStep_ladder g ls fv R C hlslen hspec
        hdR hdC hvR hvC 0 h r hr
      rw [l2iLoop, hstep]
      exact ⟨out, rfl, heq⟩
  | succ idx ih =>
      intro h r hr
      obtain ⟨r2, hstep, heq2⟩ := l2iStep_ladder g ls fv R C hlslen hspec
        hdR hdC hvR hvC (idx + 1) h r hr
      rw [l2iLoop, hstep, exBind_ok]
      exact ih (by omega) r2 heq2

theorem getLastD_eq_getD (l : List Image) :
    l.getLastD dImg = l.getD (l.length - 1) dImg := by
  rw [List.getLastD_eq_getLast?, List.getLast?_eq_getElem?,
    List.getD_eq_getElem?_getD]

/-! ### Claim C1 -/

/-- C1 counterexample: a 2 by 2 image (both dimensions exact multiples of
`2^(max_levels-1) = 2`) with `max_levels = 2`: the Gaussian pyramid stops at
one level because `2 / 2 > 16` fails, so the round trip does not return the
image at all; it fails with an index error inside
`build_laplacian_pyramid`. -/
theorem roundTrip_small_multiple_cex :
    (2 % 2 ^ (2 - 1) = 0) ∧
      errOf (roundTrip (constImg 2 2 (1/2)) 2 3) = some Err.indexError := by
  constructor
  · with_unfolding_all decide
  · with_unfolding_all decide

/-- C1 (amended): for every image whose dimensions are exact multiples of
`2^(max_levels-1)` and which in addition is large enough that the Gaussian
pyramid reaches the full `max_levels` depth (the resolution test passes at
every level index), the round trip
`laplacian_to_image(build_laplacian_pyramid(im, L, F), filter, ones(L))`
succeeds and returns the original image exactly (in exact rational
arithmetic, hence well within the floating tolerance of the claim). -/
theorem roundTrip_exact (im : Image) (L fs : ℕ) (hL : 1 ≤ L)
    (hcond : ∀ i, 1 ≤ i → i < L → gCond im.rows im.cols i)
    (hdr : 2 ^ (L - 1) ∣ im.rows) (hdc : 2 ^ (L - 1) ∣ im.cols) :
    ∃ out, roundTrip im L fs = Except.ok out ∧ out.eqOn im := by
  set g := (build_gaussian_pyramid im L fs).1 with hgdef
  have hglen : g.length = L := build_gaussian_full_length im L fs hL hcond
  have hdR : ∀ k, k < g.length → (g.getD k dImg).rows = im.rows / 2 ^ k := by
    intro k hk
    exact gaussian_level_rows im L fs hdr k (by omega) hk
  have hdC : ∀ k, k < g.length → (g.getD k dImg).cols = im.cols / 2 ^ k := by
    intro k hk
    exact gaussian_level_cols im L fs hdc k (by omega) hk
  have hvR : ∀ k, k + 1 < g.length →
      2 * (im.rows / 2 ^ (k + 1)) = im.rows / 2 ^ k := by
    intro k hk
    exact double_div_pow
      (dvd_trans (pow_dvd_pow 2 (by omega : k + 1 ≤ L - 1)) hdr)
  have hvC : ∀ k, k + 1 < g.length →
      2 * (im.cols / 2 ^ (k + 1)) = im.cols / 2 ^ k := by
    intro k hk
    exact double_div_pow
      (dvd_trans (pow_dvd_pow 2 (by omega : k + 1 ≤ L - 1)) hdc)
  obtain ⟨ls, hls⟩ := lapLoop_ok_of_aligned g (make_filter_to_size fs)
    im.rows im.cols hdR hdC hvR hvC (L - 1) 0 (by omega)
  obtain ⟨hlslen, hspec0⟩ :=
    lapLoop_ok_spec g (make_filter_to_size fs) (L - 1) 0 ls hls
  simp only [Nat.zero_add] at hspec0
  have hspec : ∀ k, k + 1 < g.length →
      imSub (g.getD k dImg)
          (expand_image (g.getD (k + 1) dImg) (make_filter_to_size fs)) =
        Except.ok (ls.getD k dImg) := by
    intro k hk
    exact hspec0 k (by omega)
  have hlap : build_laplacian_pyramid im L fs =
      Except.ok (ls ++ [g.getLastD dImg], make_filter_to_size fs) := by
    simp only [build_laplacian_pyramid]
    rw [build_gaussian_snd, ← hgdef, hls, exBind_ok]
  have hrt : roundTrip im L fs =
      laplacian_to_image (ls ++ [g.getLastD dImg]) (make_filter_to_size fs)
        (List.replicate L 1) := by
    simp only [roundTrip, hlap]
  rw [hrt]
  have hlpLen : (ls ++ [g.getLastD dImg]).length = L := by
    simp only [List.length_append, List.length_cons, List.length_nil]
    omega
  have hgetLast : getE (ls ++ [g.getLastD dImg])
      ((ls ++ [g.getLastD dImg]).length - 1) =
        Except.ok (g.getLastD dImg) := by
    unfold getE
    rw [show (ls ++ [g.getLastD dImg]).length - 1 = ls.length by
      rw [hlpLen]; omega]
    rw [List.get?_eq_getElem?, List.getElem?_concat_length]
  have hlastIsIm : g.getLastD dImg = g.getD (L - 1) dImg := by
    rw [getLastD_eq_getD, hglen]
  simp only [laplacian_to_image]
  rw [hgetLast, exBind_ok]
  rw [show (List.replicate L (1 : ℚ)).length - 1 = L - 1 by simp]
  rw [getE_replicate_one L (L - 1) (by omega), exBind_ok]
  rcases Nat.lt_or_ge L 2 with hL1 | hL2
  · have hLeq : L = 1 := by omega
    rw [if_pos (by rw [hlpLen]; omega)]
    refine ⟨_, rfl, ?_⟩
    rw [hlastIsIm, hLeq]
    have h0 : g.getD 0 dImg = im := build_gaussian_getD_zero im L fs
    simp only [Nat.sub_self]
    rw [h0]
    exact smulIm_one_eqOn im
  · rw [if_neg (by rw [hlpLen]; omega)]
    have hladder := l2iLoop_ladder g ls (make_filter_to_size fs) im.rows
      im.cols (by omega) hspec hdR hdC hvR hvC (L - 2) (by omega)
      (smulIm 1 (g.getLastD dImg))
      (by
        rw [hlastIsIm, show L - 2 + 1 = L - 1 by omega]
        exact smulIm_one_eqOn (g.getD (L - 1) dImg))
    rw [hglen] at hladder
    obtain ⟨out, hloop, heq⟩ := hladder
    rw [show (ls ++ [g.getLastD dImg]).length - 2 = L - 2 by
      rw [hlpLen]]
    rw [hloop]
    refine ⟨out, rfl, ?_⟩
    have h0 : g.getD 0 dImg = im := build_gaussian_getD_zero im L fs
    rw [h0] at heq
    exact heq

/-- Witness for C1 (amended): a 1 by 1 image with `max_levels = 1` (its
dimension is a multiple of `2^0 = 1` and the depth condition is vacuous);
the round trip returns the image exactly. -/
theorem roundTrip_exact_witness :
    ∃ out, roundTrip (constImg 1 1 (1/3)) 1 3 = Except.ok out ∧
      out.eqOn (constImg 1 1 (1/3)) :=
  roundTrip_exact (constImg 1 1 (1/3)) 1 3 (by decide)
    (fun i h1 h2 => absurd (lt_of_le_of_lt h1 h2) (lt_irrefl 1))
    (one_dvd _) (one_dvd _)

/-! ### Claim C6 -/

/-- C6: whenever `pyramid_blending` completes and returns an image, every
sample of that image lies in the closed interval `[0, 1]`: the final
`np.clip(im_blend, 0, 1)` bounds every sample regardless of the inputs. -/
theorem blend_output_in_unit_range (a b m : Image) (L fi fm i j : ℕ) (q : ℚ)
    (h : okData (pyramid_blending a b m L fi fm) i j = some q) :
    0 ≤ q ∧ q ≤ 1 := by
  unfold pyramid_blending at h
  cases h1 : build_laplacian_pyramid a L fi with
  | error e => rw [h1, exBind_error] at h; simp [okData] at h
  | ok p1 =>
      rw [h1, exBind_ok] at h
      cases h2 : build_laplacian_pyramid b L fi with
      | error e => rw [h2, exBind_error] at h; simp [okData] at h
      | ok p2 =>
          rw [h2, exBind_ok] at h
          dsimp only at h
          cases h3 : blendLoop (build_gaussian_pyramid m L fm).1 p1.1 p2.1
              p1.1.length 0 with
          | error e => rw [h3, exBind_error] at h; simp [okData] at h
          | ok lout =>
              rw [h3, exBind_ok] at h
              cases h4 : laplacian_to_image lout p1.2
                  (List.replicate p1.1.length 1) with
              | error e => rw [h4, exBind_error] at h; simp [okData] at h
              | ok blended =>
                  rw [h4, exBind_ok] at h
                  simp only [okData, Option.some.injEq] at h
                  subst h
                  constructor
                  · exact le_min (le_max_right _ 0) zero_le_one
                  · exact min_le_right _ 1

/-- Witness for C6 on two 1 by 1 images blended with an all-ones mask at
`max_levels = 1`: the blend completes with the sample `3/10`, which is in
`[0, 1]` by the claim theorem. -/
theorem blend_output_in_unit_range_witness :
    okData (pyramid_blending (constImg 1 1 (3/10)) (constImg 1 1 (9/10))
        (constImg 1 1 1) 1 3 3) 0 0 = some (3/10) ∧
      ((0 : ℚ) ≤ 3/10 ∧ (3/10 : ℚ) ≤ 1) :=
  ⟨by with_unfolding_all decide,
    blend_output_in_unit_range (constImg 1 1 (3/10)) (constImg 1 1 (9/10))
      (constImg 1 1 1) 1 3 3 0 0 (3/10) (by with_unfolding_all decide)⟩

/-! ### Claim C7 -/

theorem ewise_error_of_cols {A B : Image} (f : ℚ → ℚ → ℚ)
    (h1 : A.cols ≠ B.cols) (h2 : A.cols ≠ 1) (h3 : B.cols ≠ 1) :
    ewise f A B = Except.error Err.shapeMismatch := by
  unfold ewise
  have hc : bdim A.cols B.cols = none := by
    unfold bdim
    rw [if_neg h1, if_neg h2, if_neg h3]
  rw [hc]
  cases bdim A.rows B.rows <;> rfl

/-- C7 counterexample: `blend` on a 32 by 32 image `a`, a 32 by 31 image
`b` and a 32 by 32 mask with `max_levels = 1` does not fail before any
pyramid is built: both Laplacian pyramids and the mask Gaussian pyramid are
built successfully, and the failure is the numpy broadcasting error raised
later, at the per-level combination step. -/
theorem blend_no_early_shape_check_cex :
    build_laplacian_pyramid (constImg 32 32 0) 1 3 =
        Except.ok ([constImg 32 32 0], make_filter_to_size 3) ∧
      build_laplacian_pyramid (constImg 32 31 0) 1 3 =
        Except.ok ([constImg 32 31 0], make_filter_to_size 3) ∧
      (build_gaussian_pyramid (constImg 32 32 1) 1 3).1 = [constImg 32 32 1] ∧
      errOf (pyramid_blending (constImg 32 32 0) (constImg 32 31 0)
          (constImg 32 32 1) 1 3 3) = some Err.shapeMismatch :=
  ⟨rfl, rfl, rfl, by with_unfolding_all decide⟩

/-- C7 (amended): a `blend` call whose images do not share spatial
dimensions does fail with a shape error, but only at the per-level
combination `(1 - g_m[k]) * lpyr_2[k]` (a numpy broadcast failure), after
all three pyramids have been built; no shape validation happens first.
Stated for `max_levels = 1` with `a` and the mask sharing dimensions and
`b` differing (non-broadcastably) in column count. -/
theorem blend_mismatched_cols_error (a b m : Image) (fi fm : ℕ)
    (hra : a.rows = m.rows) (hca : a.cols = m.cols)
    (hbc : b.cols ≠ a.cols) (ha1 : a.cols ≠ 1) (hb1 : b.cols ≠ 1) :
    errOf (pyramid_blending a b m 1 fi fm) = some Err.shapeMismatch := by
  have h1 : build_laplacian_pyramid a 1 fi =
      Except.ok ([a], make_filter_to_size fi) := rfl
  have h2 : build_laplacian_pyramid b 1 fi =
      Except.ok ([b], make_filter_to_size fi) := rfl
  have hgm : (build_gaussian_pyramid m 1 fm).1 = [m] := rfl
  have hmulErr : imMul (rsubIm 1 m) b = Except.error Err.shapeMismatch := by
    simp only [imMul]
    apply ewise_error_of_cols
    · show m.cols ≠ b.cols
      rw [← hca]
      exact fun hx => hbc hx.symm
    · show m.cols ≠ 1
      rw [← hca]
      exact ha1
    · exact hb1
  have hbl : blendLoop [m] [a] [b] 1 0 = Except.error Err.shapeMismatch := by
    show blendLoop [m] [a] [b] (0 + 1) 0 = Except.error Err.shapeMismatch
    rw [blendLoop]
    rw [show getE ([m] : List Image) 0 = Except.ok m from rfl, exBind_ok]
    rw [show getE ([a] : List Image) 0 = Except.ok a from rfl, exBind_ok]
    have hmul1 := ewise_ok_of_dims (fun x y => x * y)
      (hra.symm : m.rows = a.rows) (hca.symm : m.cols = a.cols)
    rw [show imMul m a = ewise (fun x y => x * y) m a from rfl, hmul1,
      exBind_ok]
    rw [show getE ([b] : List Image) 0 = Except.ok b from rfl, exBind_ok]
    rw [hmulErr, exBind_error]
  simp only [pyramid_blending, h1, h2, exBind_ok]
  rw [hgm]
  simp only [List.length_singleton]
  rw [hbl, exBind_error]
  rfl

/-- Witness for C7 (amended) at the concrete 32 by 32 and 32 by 31
images of the claim scenario. -/
theorem blend_mismatched_cols_error_witness :
    errOf (pyramid_blending (constImg 32 32 0) (constImg 32 31 0)
        (constImg 32 32 1) 1 3 3) = some Err.shapeMismatch :=
  blend_mismatched_cols_error (constImg 32 32 0) (constImg 32 31 0)
    (constImg 32 32 1) 3 3 (by decide) (by decide) (by decide) (by decide)
    (by decide)
